import Mathlib

/-!
Verification of the core of peaBerberian/gif-renderer.rs: the GIF byte
reader (src/gif_reader.rs), the LZW decoder (src/decoder.rs) and the
container parser / frame compositor / decode driver (src/parser.rs),
shallowly embedded in Lean.  Bytes are modelled as natural numbers below
256, buffers as lists of bytes, fallible operations return Except values,
and foreign panics are modelled as explicit outcome constructors.
-/

namespace GifRenderer

/-- Error taxonomy of src/error.rs (GifParsingError).  The payload of
IOError is dropped (the underlying std::io error value is opaque to the
parsing logic). -/
inductive GifError where
  | ioError : GifError
  | noGIFHeader : GifError
  | unsupportedVersion : Option String → GifError
  | unexpectedLength : String → Nat → Nat → GifError
  | expectedBlockTerminator : Option String → GifError
  | invalidColor : GifError
  | tooMuchPixels : GifError
  | noColorTable : GifError
  | unrecognizedExtension : Nat → GifError
  | unrecognizedBlock : Nat → Nat → GifError
deriving DecidableEq, Repr

/-- Error type of src/gif_reader.rs (GifReaderStringError): reading a
string can fail on invalid UTF-8 or on an underlying I/O failure. -/
inductive StrError where
  | fromUtf8Error : StrError
  | ioError : StrError
deriving DecidableEq, Repr

/-- State of GifReader of src/gif_reader.rs over an in-memory byte
stream: the full underlying data, the position of the underlying
reader/seeker cursor (streamPos), and the `pos` counter kept by the
struct itself. -/
structure MemReader where
  data : List Nat
  streamPos : Nat
  pos : Nat
deriving DecidableEq, Repr

/-- Rust read_exact over an in-memory cursor: succeed returning the next
n bytes and advancing the cursor by n when n bytes remain; otherwise
consume every remaining byte (the default read_exact implementation
reads until end of stream before reporting UnexpectedEof) and fail.
Only the cursor moves; the `pos` counter belongs to the caller. -/
def readExact (n : Nat) (r : MemReader) : Except Unit (List Nat) × MemReader :=
  if r.streamPos + n ≤ r.data.length then
    (Except.ok ((r.data.drop r.streamPos).take n), { r with streamPos := r.streamPos + n })
  else
    (Except.error (), { r with streamPos := r.data.length })

/-- UTF-8 validity of a byte list, as checked by String::from_utf8 in
read_str of src/gif_reader.rs (including the overlong, surrogate and
out-of-range rejections of standard UTF-8). -/
def utf8Valid : List Nat → Bool
  | [] => true
  | b :: rest =>
    if b < 0x80 then utf8Valid rest
    else if b < 0xC2 then false
    else if b < 0xE0 then
      match rest with
      | c1 :: r => if 0x80 ≤ c1 ∧ c1 < 0xC0 then utf8Valid r else false
      | _ => false
    else if b < 0xF0 then
      match rest with
      | c1 :: c2 :: r =>
        if (if b = 0xE0 then 0xA0 else 0x80) ≤ c1 ∧ c1 < (if b = 0xED then 0xA0 else 0xC0)
            ∧ 0x80 ≤ c2 ∧ c2 < 0xC0 then utf8Valid r else false
      | _ => false
    else if b < 0xF5 then
      match rest with
      | c1 :: c2 :: c3 :: r =>
        if (if b = 0xF0 then 0x90 else 0x80) ≤ c1 ∧ c1 < (if b = 0xF4 then 0x90 else 0xC0)
            ∧ 0x80 ≤ c2 ∧ c2 < 0xC0 ∧ 0x80 ≤ c3 ∧ c3 < 0xC0 then utf8Valid r else false
      | _ => false
    else false

/-- read_str of src/gif_reader.rs: first add nb_bytes to `pos`, then
read_exact into a buffer, then validate it as UTF-8.  The string value
is kept as its byte list (UTF-8 decoding is injective on bytes, and the
parser only ever compares these strings for equality). -/
def readStr (n : Nat) (r : MemReader) : Except StrError (List Nat) × MemReader :=
  let r1 := { r with pos := r.pos + n }
  match readExact n r1 with
  | (Except.error _, r2) => (Except.error StrError.ioError, r2)
  | (Except.ok bs, r2) =>
    if utf8Valid bs then (Except.ok bs, r2) else (Except.error StrError.fromUtf8Error, r2)

/-- read_u16 of src/gif_reader.rs: add 2 to `pos`, read two bytes,
combine them little-endian. -/
def readU16 (r : MemReader) : Except GifError Nat × MemReader :=
  let r1 := { r with pos := r.pos + 2 }
  match readExact 2 r1 with
  | (Except.error _, r2) => (Except.error GifError.ioError, r2)
  | (Except.ok bs, r2) => (Except.ok (bs.headD 0 + 256 * (bs.tail.headD 0)), r2)

/-- read_u8 of src/gif_reader.rs: add 1 to `pos`, read one byte. -/
def readU8 (r : MemReader) : Except GifError Nat × MemReader :=
  let r1 := { r with pos := r.pos + 1 }
  match readExact 1 r1 with
  | (Except.error _, r2) => (Except.error GifError.ioError, r2)
  | (Except.ok bs, r2) => (Except.ok (bs.headD 0), r2)

/-- read_bytes of src/gif_reader.rs: add nb_bytes to `pos`, read that
many bytes. -/
def readBytes (n : Nat) (r : MemReader) : Except GifError (List Nat) × MemReader :=
  let r1 := { r with pos := r.pos + n }
  match readExact n r1 with
  | (Except.error _, r2) => (Except.error GifError.ioError, r2)
  | (Except.ok bs, r2) => (Except.ok bs, r2)

/-- skip_bytes of src/gif_reader.rs: add nb_bytes to `pos`, then seek
the underlying reader to the absolute offset `pos`.  Seeking to an
absolute offset never fails on a file or in-memory cursor, so the
operation is total here. -/
def skipBytes (n : Nat) (r : MemReader) : MemReader :=
  let p := r.pos + n
  { r with pos := p, streamPos := p }

/-- get_pos of src/gif_reader.rs. -/
def getPos (r : MemReader) : Nat := r.pos

/-- Cursor position of the reader returned by readExact is independent
of success or failure of the read; the `pos` field is untouched. -/
theorem readExact_pos (n : Nat) (r : MemReader) : ((readExact n r).2).pos = r.pos := by
  unfold readExact
  split <;> rfl

/-- C10: every GifReader operation (read_str, read_u16, read_u8,
read_bytes, skip_bytes) adds the requested byte count to the `pos`
counter before attempting the underlying read, so even after a failed
read get_pos reports the position as if the read had succeeded, and the
counter never decreases. -/
theorem gifReader_pos_advance (r : MemReader) (n : Nat) :
    getPos (readStr n r).2 = getPos r + n ∧
    getPos (readU16 r).2 = getPos r + 2 ∧
    getPos (readU8 r).2 = getPos r + 1 ∧
    getPos (readBytes n r).2 = getPos r + n ∧
    getPos (skipBytes n r) = getPos r + n ∧
    getPos r ≤ getPos (readStr n r).2 ∧
    getPos r ≤ getPos (readU16 r).2 ∧
    getPos r ≤ getPos (readU8 r).2 ∧
    getPos r ≤ getPos (readBytes n r).2 ∧
    getPos r ≤ getPos (skipBytes n r) := by
  have hs : ∀ m (s : MemReader), getPos (readStr m s).2 = getPos s + m := by
    intro m s
    unfold readStr getPos
    have := readExact_pos m { s with pos := s.pos + m }
    rcases h : readExact m { s with pos := s.pos + m } with ⟨res, s2⟩
    rcases res with e | bs <;> simp_all <;> split <;> simp_all
  have h16 : ∀ (s : MemReader), getPos (readU16 s).2 = getPos s + 2 := by
    intro s
    unfold readU16 getPos
    have := readExact_pos 2 { s with pos := s.pos + 2 }
    rcases h : readExact 2 { s with pos := s.pos + 2 } with ⟨res, s2⟩
    rcases res with e | bs <;> simp_all
  have h8 : ∀ (s : MemReader), getPos (readU8 s).2 = getPos s + 1 := by
    intro s
    unfold readU8 getPos
    have := readExact_pos 1 { s with pos := s.pos + 1 }
    rcases h : readExact 1 { s with pos := s.pos + 1 } with ⟨res, s2⟩
    rcases res with e | bs <;> simp_all
  have hb : ∀ m (s : MemReader), getPos (readBytes m s).2 = getPos s + m := by
    intro m s
    unfold readBytes getPos
    have := readExact_pos m { s with pos := s.pos + m }
    rcases h : readExact m { s with pos := s.pos + m } with ⟨res, s2⟩
    rcases res with e | bs <;> simp_all
  have e1 := hs n r
  have e2 := h16 r
  have e3 := h8 r
  have e4 := hb n r
  simp only [getPos] at e1 e2 e3 e4 ⊢
  refine ⟨e1, e2, e3, e4, rfl, ?_, ?_, ?_, ?_, ?_⟩ <;>
    first
    | omega
    | · simp only [skipBytes]
        omega

/-- Inversion for a successful read_u8: the data is unchanged, `pos` and
the cursor advance by one, and the cursor was strictly inside the data. -/
theorem readU8_ok_inv {r : MemReader} {b : Nat} {r1 : MemReader}
    (h : readU8 r = (Except.ok b, r1)) :
    r1.data = r.data ∧ r1.pos = r.pos + 1 ∧ r1.streamPos = r.streamPos + 1 ∧
      r.streamPos < r.data.length := by
  unfold readU8 readExact at h
  by_cases hc : r.streamPos + 1 ≤ r.data.length
  · simp [hc] at h
    obtain ⟨h1, h2⟩ := h
    subst h2
    exact ⟨rfl, rfl, rfl, hc⟩
  · simp [hc] at h

/-- Termination measure for the sub-block skipping loops: once `pos` and
the cursor agree (which every skip re-establishes), each loop iteration
moves the common position strictly forward, bounded by the data length. -/
def readerMeasure (r : MemReader) : Nat :=
  if r.pos = r.streamPos then r.data.length + 1 - r.pos else r.data.length + 2

/-- skip_sub_blocks of src/parser.rs: repeatedly read a sub-block size
byte; stop after a zero size, otherwise skip that many bytes and loop. -/
def skipSubBlocks (r : MemReader) : Except GifError MemReader :=
  match h : readU8 r with
  | (Except.error e, _) => Except.error e
  | (Except.ok b, r1) =>
    if b = 0 then Except.ok r1
    else skipSubBlocks (skipBytes b r1)
termination_by readerMeasure r
decreasing_by
  obtain ⟨hd, hp, hsp, hlt⟩ := readU8_ok_inv h
  simp [readerMeasure, skipBytes, hd, hp, hsp]
  split <;> omega

/-- Outcome of the comment-extension branch of the decode driver.  The
source can end this branch in a Rust panic, modelled explicitly. -/
inductive CommentOutcome where
  | ok : MemReader → CommentOutcome
  | err : GifError → CommentOutcome
  | panicked : String → CommentOutcome
deriving DecidableEq, Repr

/-- Comment Extension branch of decode_and_render (src/parser.rs lines
136-143): skip the sub-block chain, then read one more byte and end in
the TOTO panic when that byte is not zero. -/
def commentExtensionStep (r : MemReader) : CommentOutcome :=
  match skipSubBlocks r with
  | Except.error e => CommentOutcome.err e
  | Except.ok r1 =>
    match readU8 r1 with
    | (Except.error e, _) => CommentOutcome.err e
    | (Except.ok b, r2) =>
      if b ≠ 0 then CommentOutcome.panicked "TOTO" else CommentOutcome.ok r2

/-- Application extension values of src/parser.rs. -/
inductive ApplicationExtension where
  | netscapeLooping : Nat → ApplicationExtension
  | notKnown : ApplicationExtension
deriving DecidableEq, Repr

/-- ASCII bytes of the string NETSCAPE. -/
def netscapeName : List Nat := [78, 69, 84, 83, 67, 65, 80, 69]

/-- Remaining-data skip loop of parse_application_extension
(src/parser.rs lines 241-247): while data_len is not zero, skip
`data_len - 1` bytes and read the following byte as the new data_len. -/
def appExtSkipLoop (dataLen : Nat) (r : MemReader) : Except GifError MemReader :=
  if dataLen = 0 then Except.ok r
  else
    match h : readU8 (skipBytes (dataLen - 1) r) with
    | (Except.error e, _) => Except.error e
    | (Except.ok b, r2) => appExtSkipLoop b r2
termination_by readerMeasure r
decreasing_by
  obtain ⟨hd, hp, hsp, hlt⟩ := readU8_ok_inv h
  have h1 : r2.data = r.data := by simpa [skipBytes] using hd
  have h2 : r2.pos = r.pos + (dataLen - 1) + 1 := by simpa [skipBytes] using hp
  have h3 : r2.streamPos = r.pos + (dataLen - 1) + 1 := by simpa [skipBytes] using hsp
  have h4 : r.pos + (dataLen - 1) < r.data.length := by simpa [skipBytes] using hlt
  simp [readerMeasure, h1, h2, h3]
  split <;> omega

/-- Trailing part of parse_application_extension: run the skip loop,
then require a zero block terminator. -/
def finishAppExt (ext : ApplicationExtension) (dataLen : Nat) (r : MemReader) :
    Except GifError (ApplicationExtension × MemReader) :=
  match appExtSkipLoop dataLen r with
  | Except.error e => Except.error e
  | Except.ok r1 =>
    match readU8 r1 with
    | (Except.error e, _) => Except.error e
    | (Except.ok t, r2) =>
      if t ≠ 0 then
        Except.error (GifError.expectedBlockTerminator (some "ApplicationExtension Extension"))
      else Except.ok (ext, r2)

/-- parse_application_extension of src/parser.rs: check block size 11,
read the 8-byte application name (a failed string read is swallowed into
an absent name) and the 3 authentication bytes, read the first sub-block
length, recognize the NETSCAPE2.0 looping sub-block, then skip the
remaining data blocks and require a zero terminator. -/
def parseApplicationExtension (r : MemReader) :
    Except GifError (ApplicationExtension × MemReader) :=
  match readU8 r with
  | (Except.error e, _) => Except.error e
  | (Except.ok blockSize, r1) =>
    if blockSize ≠ 11 then
      Except.error (GifError.unexpectedLength "Application Extension" 11 blockSize)
    else
      match readStr 8 r1 with
      | (appNameRes, r2) =>
        let appName : Option (List Nat) :=
          match appNameRes with
          | Except.error _ => none
          | Except.ok x => some x
        match readU8 r2 with
        | (Except.error e, _) => Except.error e
        | (Except.ok a1, r3) =>
        match readU8 r3 with
        | (Except.error e, _) => Except.error e
        | (Except.ok a2, r4) =>
        match readU8 r4 with
        | (Except.error e, _) => Except.error e
        | (Except.ok a3, r5) =>
        match readU8 r5 with
        | (Except.error e, _) => Except.error e
        | (Except.ok dataLen0, r6) =>
          if dataLen0 = 0 then Except.ok (ApplicationExtension.notKnown, r6)
          else if appName = some netscapeName ∧ a1 = 50 ∧ a2 = 46 ∧ a3 = 48 ∧ 3 ≤ dataLen0 then
            match readU8 r6 with
            | (Except.error e, _) => Except.error e
            | (Except.ok subBlockId, r7) =>
              if dataLen0 ≠ 3 ∨ subBlockId ≠ 1 then
                finishAppExt ApplicationExtension.notKnown (dataLen0 - 1) r7
              else
                match readU16 r7 with
                | (Except.error e, _) => Except.error e
                | (Except.ok loopCount, r8) =>
                  finishAppExt (ApplicationExtension.netscapeLooping loopCount) (dataLen0 - 3) r8
          else
            finishAppExt ApplicationExtension.notKnown dataLen0 r6

/-- C2: on a Comment Extension whose sub-block chain is the single
zero-length terminator followed by the Trailer tag 0x3B, the decode
driver does not continue at the next block tag: skip_sub_blocks already
consumes the terminator, the branch then reads the Trailer tag itself as
a second terminator and ends in the TOTO panic instead of decoding on
(and instead of the ExpectedBlockTerminator error the claim prescribes
for a genuinely missing terminator). -/
theorem commentExtension_panics_after_terminator :
    commentExtensionStep ⟨[0x00, 0x3B], 0, 0⟩ = CommentOutcome.panicked "TOTO" := by
  simp [commentExtensionStep, skipSubBlocks, readU8, readExact, skipBytes]

/-- Application Extension input for C3: block size 11, name ABCDEFGH
(not NETSCAPE), authentication bytes 1,2,3, then the sub-block chain
`01 AA 00`: one sub-block of length 1 with data byte 0xAA, then the
zero-length terminator. -/
def c3Input : MemReader :=
  ⟨[11, 65, 66, 67, 68, 69, 70, 71, 72, 1, 2, 3, 1, 0xAA, 0], 0, 0⟩

/-- C3: on a non-NETSCAPE Application Extension whose sub-block chain is
`01 AA 00`, parse_application_extension does not consume the chain and
return NotKnown: its skip loop skips `L - 1` bytes instead of `L`, reads
the final data byte 0xAA as the next sub-block length, skips far past
the terminator and fails with an I/O error. -/
theorem appExt_skip_misreads_data_byte :
    parseApplicationExtension c3Input = Except.error GifError.ioError := by
  have h : parseApplicationExtension c3Input =
      finishAppExt ApplicationExtension.notKnown 1
        ⟨[11, 65, 66, 67, 68, 69, 70, 71, 72, 1, 2, 3, 1, 0xAA, 0], 13, 13⟩ := rfl
  rw [h]
  simp [finishAppExt, appExtSkipLoop, readU8, readExact, skipBytes]

/-- Disposal methods of src/parser.rs. -/
inductive DisposalMethod where
  | noDisposalSpecified : DisposalMethod
  | doNotDispose : DisposalMethod
  | restoreToBackgroundColor : DisposalMethod
  | restoreToPrevious : DisposalMethod
deriving DecidableEq, Repr

/-- Graphic Control Extension values of src/parser.rs. -/
structure GraphicControlExtension where
  disposal : DisposalMethod
  userInput : Bool
  transparentColorIndex : Option Nat
  delay : Nat
deriving DecidableEq, Repr

/-- Image Descriptor branch of decode_and_render (src/parser.rs lines
63-96), restricted to the persistent raster: from the last GCE, the
current next_frame_base_buffer and the frame just built, compute the
next_frame_base_buffer handed to the following image.  The source first
clones the current base buffer into cloned_image_background when the
disposal method is RestoreToPrevious (the base buffer itself is then
moved into construct_next_frame), and selects the new base after the
frame is built. -/
def imageDescriptorNextBase (lastGce : Option GraphicControlExtension)
    (nextBase : Option (List Nat)) (block : List Nat) : Option (List Nat) :=
  let clonedImageBackground : Option (List Nat) :=
    match lastGce with
    | some g =>
      match g.disposal with
      | DisposalMethod.restoreToPrevious => nextBase
      | _ => none
    | none => none
  match lastGce with
  | some g =>
    match g.disposal with
    | DisposalMethod.doNotDispose => some block
    | DisposalMethod.noDisposalSpecified => some block
    | DisposalMethod.restoreToPrevious => clonedImageBackground
    | _ => none
  | none => none

/-- C4: after an Image Descriptor is processed, the new next_base is a
clone of the just-emitted frame under DoNotDispose or
NoDisposalSpecified, the clone of next_base taken before the frame was
built under RestoreToPrevious, and None under RestoreToBackgroundColor
or when no GCE precedes the image. -/
theorem nextBase_disposal_spec (g : Option GraphicControlExtension)
    (nb : Option (List Nat)) (blk : List Nat) :
    imageDescriptorNextBase g nb blk =
      match g with
      | some gce =>
        match gce.disposal with
        | DisposalMethod.doNotDispose => some blk
        | DisposalMethod.noDisposalSpecified => some blk
        | DisposalMethod.restoreToPrevious => nb
        | DisposalMethod.restoreToBackgroundColor => none
      | none => none := by
  rcases g with _ | ⟨d, u, t, dl⟩
  · rfl
  · cases d <;> rfl

/-- RGB color triplet of src/color.rs. -/
structure RGB where
  r : Nat
  g : Nat
  b : Nat
deriving DecidableEq, Repr

/-- DEFAULT_BACKGROUND_COLOR of src/parser.rs: opaque white. -/
def defaultBackgroundColor : RGB := ⟨0xFF, 0xFF, 0xFF⟩

/-- Inputs of the pixel-writing loop of construct_next_frame
(src/parser.rs), fixed for a whole image block. -/
structure FrameParams where
  imgWidth : Nat
  imgHeight : Nat
  blockLeft : Nat
  blockTop : Nat
  blockWidth : Nat
  blockHeight : Nat
  hasInterlacing : Bool
  hasBackgroundFrame : Bool
  backgroundColor : Option RGB
  transparentColorIndex : Option Nat
  colorTable : List RGB
deriving DecidableEq, Repr

/-- Mutable state of the pixel-writing loop of construct_next_frame:
current position, interlacing cycle and line step, and the output
raster (global_buffer). -/
structure PixelState where
  x : Nat
  y : Nat
  interlacingCycle : Nat
  lineStep : Nat
  buffer : List Nat
deriving DecidableEq, Repr

/-- Outcome of handling one decoded index byte in construct_next_frame:
continue the loop, return the finished raster early (the remaining
sub-blocks are then drained), or fail. -/
inductive StepResult where
  | next : PixelState → StepResult
  | finished : List Nat → StepResult
  | failed : GifError → StepResult
deriving DecidableEq, Repr

/-- max_pos_width of construct_next_frame. -/
def maxPosWidth (p : FrameParams) : Nat := p.blockWidth + p.blockLeft - 1

/-- max_pos_height of construct_next_frame. -/
def maxPosHeight (p : FrameParams) : Nat := p.blockHeight + p.blockTop - 1

/-- Write one RGB triplet at byte offset idx of a raster, as the three
global_buffer assignments of construct_next_frame do. -/
def writeRGB (buf : List Nat) (idx : Nat) (c : RGB) : List Nat :=
  ((buf.set idx c.r).set (idx + 1) c.g).set (idx + 2) c.b

/-- Pixel-write part of the loop body (src/parser.rs lines 434-453):
an index equal to the transparent color index leaves the buffer alone
when a base frame was provided and writes the background color (default
white) otherwise; any other index writes the color-table entry. -/
def pixelWrite (p : FrameParams) (st : PixelState) (elt : Nat) : List Nat :=
  let currBufferIdx := ((st.y * p.imgWidth) + st.x) * 3
  match p.transparentColorIndex with
  | some tIdx =>
    if tIdx = elt then
      if p.hasBackgroundFrame then st.buffer
      else writeRGB st.buffer currBufferIdx (p.backgroundColor.getD defaultBackgroundColor)
    else writeRGB st.buffer currBufferIdx (p.colorTable.getD elt ⟨0, 0, 0⟩)
  | none => writeRGB st.buffer currBufferIdx (p.colorTable.getD elt ⟨0, 0, 0⟩)

/-- Body of `for elt in decoded_data` of construct_next_frame
(src/parser.rs lines 425-474): bounds checks, transparent or color-table
pixel write, then position advance with the interlacing pass changes. -/
def processDecodedByte (p : FrameParams) (st : PixelState) (elt : Nat) : StepResult :=
  if p.colorTable.length ≤ elt then StepResult.failed GifError.invalidColor
  else
    let currBufferIdx := ((st.y * p.imgWidth) + st.x) * 3
    if st.buffer.length ≤ currBufferIdx + 2 then StepResult.failed GifError.tooMuchPixels
    else
      let buf1 := pixelWrite p st elt
      let x1 := st.x + 1
      if maxPosWidth p < x1 then
        let y1 := st.y + st.lineStep
        if maxPosHeight p < y1 then
          if ¬ p.hasInterlacing ∨ 3 ≤ st.interlacingCycle then StepResult.finished buf1
          else
            let cyc := st.interlacingCycle + 1
            let yStep : Nat × Nat :=
              match cyc with
              | 1 => (4, 8)
              | 2 => (2, 4)
              | _ => (1, 2)
            StepResult.next ⟨p.blockLeft, yStep.1, cyc, yStep.2, buf1⟩
        else StepResult.next ⟨p.blockLeft, y1, st.interlacingCycle, st.lineStep, buf1⟩
      else StepResult.next ⟨x1, st.y, st.interlacingCycle, st.lineStep, buf1⟩

/-- Raster buffer carried by a step outcome, when the step did not
fail. -/
def stepBuffer : StepResult → Option (List Nat)
  | StepResult.next s => some s.buffer
  | StepResult.finished b => some b
  | StepResult.failed _ => none

/-- When both bounds checks pass, the loop body always carries the
pixel-written buffer, whether it continues or finishes the frame. -/
theorem stepBuffer_processDecodedByte (p : FrameParams) (st : PixelState) (elt : Nat)
    (hc : elt < p.colorTable.length)
    (hb : ((st.y * p.imgWidth) + st.x) * 3 + 2 < st.buffer.length) :
    stepBuffer (processDecodedByte p st elt) = some (pixelWrite p st elt) := by
  unfold processDecodedByte
  rw [if_neg (Nat.not_le.mpr hc), if_neg (Nat.not_le.mpr hb)]
  dsimp only
  repeat' split
  all_goals rfl

/-- Reading back a writeRGB: the three bytes at the write offset hold
the written channels and every other position is unchanged. -/
theorem writeRGB_readback (buf : List Nat) (idx : Nat) (c : RGB)
    (h : idx + 2 < buf.length) :
    (writeRGB buf idx c).length = buf.length ∧
    (writeRGB buf idx c)[idx]? = some c.r ∧
    (writeRGB buf idx c)[idx + 1]? = some c.g ∧
    (writeRGB buf idx c)[idx + 2]? = some c.b ∧
    ∀ j, j < idx ∨ idx + 2 < j → (writeRGB buf idx c)[j]? = buf[j]? := by
  unfold writeRGB
  refine ⟨by simp, ?_, ?_, ?_, ?_⟩
  · rw [List.getElem?_set_ne (by omega), List.getElem?_set_ne (by omega),
      List.getElem?_set_self (by omega)]
  · rw [List.getElem?_set_ne (by omega), List.getElem?_set_self (by simp; omega)]
  · rw [List.getElem?_set_self (by simp; omega)]
  · intro j hj
    rw [List.getElem?_set_ne (by omega), List.getElem?_set_ne (by omega),
      List.getElem?_set_ne (by omega)]

/-- C5: for a decoded index byte written inside the raster, an index
equal to the transparent color index leaves the existing pixel unchanged
when a base buffer was provided and writes the background color (opaque
white 0xFFFFFF when none) when not; any other index writes the
color-table entry; bytes outside the written pixel are untouched. -/
theorem transparency_write_spec (p : FrameParams) (st : PixelState) (elt : Nat)
    (hc : elt < p.colorTable.length)
    (hb : ((st.y * p.imgWidth) + st.x) * 3 + 2 < st.buffer.length) :
    ∃ b1,
      stepBuffer (processDecodedByte p st elt) = some b1 ∧
      b1.length = st.buffer.length ∧
      (p.transparentColorIndex = some elt → p.hasBackgroundFrame = true →
        b1 = st.buffer) ∧
      (p.transparentColorIndex = some elt → p.hasBackgroundFrame = false →
        b1[((st.y * p.imgWidth) + st.x) * 3]? =
          some (p.backgroundColor.getD defaultBackgroundColor).r ∧
        b1[((st.y * p.imgWidth) + st.x) * 3 + 1]? =
          some (p.backgroundColor.getD defaultBackgroundColor).g ∧
        b1[((st.y * p.imgWidth) + st.x) * 3 + 2]? =
          some (p.backgroundColor.getD defaultBackgroundColor).b) ∧
      (p.transparentColorIndex ≠ some elt →
        b1[((st.y * p.imgWidth) + st.x) * 3]? = some (p.colorTable.getD elt ⟨0, 0, 0⟩).r ∧
        b1[((st.y * p.imgWidth) + st.x) * 3 + 1]? = some (p.colorTable.getD elt ⟨0, 0, 0⟩).g ∧
        b1[((st.y * p.imgWidth) + st.x) * 3 + 2]? = some (p.colorTable.getD elt ⟨0, 0, 0⟩).b) ∧
      (∀ j, j < ((st.y * p.imgWidth) + st.x) * 3 ∨ ((st.y * p.imgWidth) + st.x) * 3 + 2 < j →
        b1[j]? = st.buffer[j]?) := by
  refine ⟨pixelWrite p st elt, stepBuffer_processDecodedByte p st elt hc hb, ?_, ?_, ?_, ?_, ?_⟩
  · unfold pixelWrite
    rcases p.transparentColorIndex with _ | t
    · simp [writeRGB]
    · dsimp only
      split
      · split
        · rfl
        · simp [writeRGB]
      · simp [writeRGB]
  · intro ht hbg
    unfold pixelWrite
    rw [ht, hbg]
    simp
  · intro ht hbg
    unfold pixelWrite
    rw [ht, hbg]
    simp only [if_pos rfl, Bool.false_eq_true, if_neg (by simp : ¬False)]
    exact ⟨(writeRGB_readback _ _ _ hb).2.1, (writeRGB_readback _ _ _ hb).2.2.1,
      (writeRGB_readback _ _ _ hb).2.2.2.1⟩
  · intro ht
    unfold pixelWrite
    rcases hp : p.transparentColorIndex with _ | t
    · exact ⟨(writeRGB_readback _ _ _ hb).2.1, (writeRGB_readback _ _ _ hb).2.2.1,
        (writeRGB_readback _ _ _ hb).2.2.2.1⟩
    · have hne : t ≠ elt := by
        intro hte
        exact ht (by rw [hp, hte])
      dsimp only
      rw [if_neg hne]
      exact ⟨(writeRGB_readback _ _ _ hb).2.1, (writeRGB_readback _ _ _ hb).2.2.1,
        (writeRGB_readback _ _ _ hb).2.2.2.1⟩
  · intro j hj
    unfold pixelWrite
    rcases p.transparentColorIndex with _ | t
    · exact (writeRGB_readback _ _ _ hb).2.2.2.2 j hj
    · dsimp only
      split
      · split
        · rfl
        · exact (writeRGB_readback _ _ _ hb).2.2.2.2 j hj
      · exact (writeRGB_readback _ _ _ hb).2.2.2.2 j hj

/-- Closed instance of transparency_write_spec: transparent index 3 with
a base buffer present leaves the buffer as it was. -/
theorem transparency_write_spec_witness :
    ∃ b1,
      stepBuffer (processDecodedByte
        ⟨2, 2, 0, 0, 2, 2, false, true, none, some 3, [⟨1, 2, 3⟩, ⟨4, 5, 6⟩, ⟨7, 8, 9⟩, ⟨10, 11, 12⟩]⟩
        ⟨0, 0, 0, 1, List.replicate 12 7⟩ 3) = some b1 ∧
      b1 = List.replicate 12 7 := by
  obtain ⟨b1, h1, _, h3, _⟩ :=
    transparency_write_spec
      ⟨2, 2, 0, 0, 2, 2, false, true, none, some 3, [⟨1, 2, 3⟩, ⟨4, 5, 6⟩, ⟨7, 8, 9⟩, ⟨10, 11, 12⟩]⟩
      ⟨0, 0, 0, 1, List.replicate 12 7⟩ 3 (by decide) (by decide)
  exact ⟨b1, h1, h3 rfl rfl⟩

/-- Image-block parameters for the interlacing counterexample: an
interlaced 1-wide, 16-tall block at top offset 8 of a 1 by 24 screen,
with a one-entry color table. -/
def c1Params : FrameParams :=
  ⟨1, 24, 0, 8, 1, 16, true, false, none, none, [⟨1, 2, 3⟩]⟩

/-- Loop state at the last pixel of the first interlacing pass of
c1Params: x at the left edge, y at row 16 (rows 8 and 16 are the first
pass), cycle 0, line step 8. -/
def c1State : PixelState := ⟨0, 16, 0, 8, List.replicate 72 0⟩

/-- C1: writing the pixel that ends the first interlacing pass of a
block with top offset 8 starts the second pass at the absolute row 4
with x reset to the left edge, not at row top + 4 = 12: the source
resets y_pos to the constants 4, 2 and 1 for passes 2 to 4, ignoring
the block's top offset (only the first pass starts at top + 0). -/
theorem interlacing_restart_ignores_top :
    ∃ st1, processDecodedByte c1Params c1State 0 = StepResult.next st1 ∧
      st1.x = c1Params.blockLeft ∧ st1.interlacingCycle = 1 ∧ st1.lineStep = 8 ∧
      st1.y = 4 ∧ c1Params.blockTop + 4 = 12 ∧ st1.y ≠ 12 := by
  refine ⟨⟨0, 4, 1, 8, pixelWrite c1Params c1State 0⟩, rfl, rfl, rfl, rfl, rfl, rfl, by decide⟩

/-- State of LsbReader of src/decoder.rs: the count of pending bits and
the pending accumulator value.  The accumulator is a u32 in the source;
with code sizes capped at 16 by the guard the loop only shifts bytes to
bit positions below 24, so u32 arithmetic never wraps and plain natural
numbers model it exactly on all reachable states. -/
structure LsbReader where
  bits : Nat
  acc : Nat
deriving DecidableEq, Repr

/-- Body of get_next_code of src/decoder.rs after its size guard: while
fewer than code_size bits are pending, consume one byte, OR it into the
accumulator at the pending-bit position and add 8 to the bit count,
returning no code once the input is exhausted; once enough bits are
pending, return the low code_size bits and shift them out.  The result
triple is (bytes consumed, code read, new reader state). -/
def getNextCode (rd : LsbReader) (buf : List Nat) (codeSize : Nat) :
    Nat × Option Nat × LsbReader :=
  if rd.bits < codeSize then
    match buf with
    | [] => (0, none, rd)
    | b :: rest =>
      let rd1 : LsbReader := ⟨rd.bits + 8, rd.acc ||| (b <<< rd.bits)⟩
      let r := getNextCode rd1 rest codeSize
      (r.1 + 1, r.2)
  else
    (0, some (rd.acc &&& ((1 <<< codeSize) - 1)), ⟨rd.bits - codeSize, rd.acc >>> codeSize⟩)

/-- get_next_code of src/decoder.rs including its guard: a code size
above 16 hits the `Cannot read more than 16 bits` panic, modelled as an
error value. -/
def getNextCodeChecked (rd : LsbReader) (buf : List Nat) (codeSize : Nat) :
    Except String (Nat × Option Nat × LsbReader) :=
  if 16 < codeSize then Except.error "Cannot read more than 16 bits"
  else Except.ok (getNextCode rd buf codeSize)

/-- Reader state after greedily ORing a list of bytes into the
accumulator, 8 bits at a time. -/
def fillReader (rd : LsbReader) (bs : List Nat) : LsbReader :=
  bs.foldl (fun s b => ⟨s.bits + 8, s.acc ||| (b <<< s.bits)⟩) rd

/-- Number of bytes the fill loop of get_next_code consumes before the
pending bits reach codeSize. -/
def bytesNeeded (rd : LsbReader) (codeSize : Nat) : Nat :=
  (codeSize - rd.bits + 7) / 8

/-- C6: get_next_code consumes bytes one at a time, ORing each into the
accumulator at the pending-bit position and adding 8 to the bit count,
while the pending bits are below the requested code size; when the input
runs out first it returns no code and keeps the accumulated state for
the next call, and otherwise it returns the masked low code_size bits,
shifts the accumulator right by code_size and subtracts code_size from
the bit count. -/
theorem getNextCode_spec (rd : LsbReader) (buf : List Nat) (codeSize : Nat) :
    (buf.length < bytesNeeded rd codeSize →
      getNextCode rd buf codeSize = (buf.length, none, fillReader rd buf)) ∧
    (bytesNeeded rd codeSize ≤ buf.length →
      getNextCode rd buf codeSize =
        (bytesNeeded rd codeSize,
          some ((fillReader rd (buf.take (bytesNeeded rd codeSize))).acc &&&
            ((1 <<< codeSize) - 1)),
          ⟨(fillReader rd (buf.take (bytesNeeded rd codeSize))).bits - codeSize,
            (fillReader rd (buf.take (bytesNeeded rd codeSize))).acc >>> codeSize⟩)) := by
  induction buf generalizing rd with
  | nil =>
    constructor
    · intro hlt
      have hb : rd.bits < codeSize := by
        by_contra hge
        have : bytesNeeded rd codeSize = 0 := by
          unfold bytesNeeded
          omega
        omega
      unfold getNextCode
      rw [if_pos hb]
      rfl
    · intro hle
      have h0 : bytesNeeded rd codeSize = 0 := by
        simpa using hle
      have hb : ¬ rd.bits < codeSize := by
        unfold bytesNeeded at h0
        omega
      unfold getNextCode
      rw [if_neg hb]
      simp [h0, fillReader]
  | cons b rest ih =>
    constructor
    · intro hlt
      have hb : rd.bits < codeSize := by
        by_contra hge
        have : bytesNeeded rd codeSize = 0 := by
          unfold bytesNeeded
          omega
        omega
      have hrec : bytesNeeded (⟨rd.bits + 8, rd.acc ||| (b <<< rd.bits)⟩ : LsbReader) codeSize
          = bytesNeeded rd codeSize - 1 := by
        unfold bytesNeeded
        simp only
        omega
      have hlt2 : rest.length < bytesNeeded ⟨rd.bits + 8, rd.acc ||| (b <<< rd.bits)⟩ codeSize := by
        rw [hrec]
        simp only [List.length_cons] at hlt
        omega
      unfold getNextCode
      rw [if_pos hb]
      have := (ih ⟨rd.bits + 8, rd.acc ||| (b <<< rd.bits)⟩).1 hlt2
      simp only [this, fillReader, List.foldl_cons, List.length_cons]
    · intro hle
      by_cases hb : rd.bits < codeSize
      · have hk : 1 ≤ bytesNeeded rd codeSize := by
          unfold bytesNeeded
          omega
        have hrec : bytesNeeded (⟨rd.bits + 8, rd.acc ||| (b <<< rd.bits)⟩ : LsbReader) codeSize
            = bytesNeeded rd codeSize - 1 := by
          unfold bytesNeeded
          simp only
          omega
        have hle2 : bytesNeeded ⟨rd.bits + 8, rd.acc ||| (b <<< rd.bits)⟩ codeSize
            ≤ rest.length := by
          rw [hrec]
          simp only [List.length_cons] at hle
          omega
        have htake : (b :: rest).take (bytesNeeded rd codeSize)
            = b :: rest.take (bytesNeeded rd codeSize - 1) := by
          rcases Nat.exists_eq_add_of_le hk with ⟨m, hm⟩
          rw [hm]
          simp [List.take_succ_cons, Nat.add_comm]
        unfold getNextCode
        rw [if_pos hb]
        have := (ih ⟨rd.bits + 8, rd.acc ||| (b <<< rd.bits)⟩).2 hle2
        have hsub : bytesNeeded rd codeSize - 1 + 1 = bytesNeeded rd codeSize := by omega
        simp only [this, hrec, htake, fillReader, List.foldl_cons, hsub]
      · have h0 : bytesNeeded rd codeSize = 0 := by
          unfold bytesNeeded
          omega
        unfold getNextCode
        rw [if_neg hb]
        simp [h0, fillReader]

/-- Closed instance of getNextCode_spec: reading 9 bits from two fresh
bytes yields code 427 with 7 bits left pending, and reading 9 bits from
a single byte yields no code with the byte retained in the state. -/
theorem getNextCode_spec_witness :
    getNextCode ⟨0, 0⟩ [171, 1] 9 = (2, some 427, ⟨7, 0⟩) ∧
    getNextCode ⟨0, 0⟩ [171] 9 = (1, none, ⟨8, 171⟩) := by
  have h2 := (getNextCode_spec ⟨0, 0⟩ [171, 1] 9).2 (by decide)
  have h1 := (getNextCode_spec ⟨0, 0⟩ [171] 9).1 (by decide)
  constructor
  · rw [h2]
    decide
  · rw [h1]
    decide

/-- State of LzwDictionary of src/decoder.rs: the minimum code size,
the current code size, and the code table (None marks the two sentinel
codes). -/
structure LzwDictionary where
  minCodeSize : Nat
  currCodeSize : Nat
  table : List (Option (List Nat))
deriving DecidableEq, Repr

/-- Initial code table built by LzwDictionary::clear: one single-byte
root per code below 2^min_code_size (the loop index is truncated to a
byte by `i as u8`), then the clear and stop sentinels. -/
def initTable (min : Nat) : List (Option (List Nat)) :=
  ((List.range (2 ^ min)).map (fun i => some [i % 256])) ++ [none, none]

/-- clear of LzwDictionary (src/decoder.rs): reset the table to roots
plus the two sentinels and the current code size to min_code_size + 1. -/
def LzwDictionary.clear (d : LzwDictionary) : LzwDictionary :=
  { d with currCodeSize := d.minCodeSize + 1, table := initTable d.minCodeSize }

/-- new of LzwDictionary (src/decoder.rs): build the state and clear
it. -/
def LzwDictionary.new (min : Nat) : LzwDictionary :=
  LzwDictionary.clear ⟨min, min + 1, []⟩

/-- push_new_value of LzwDictionary (src/decoder.rs): append the value
to the table, then increment the current code size when the table
length has reached 2^current and the current size is below 12. -/
def LzwDictionary.pushNewValue (d : LzwDictionary) (val : List Nat) : LzwDictionary :=
  let table1 := d.table ++ [some val]
  if table1.length = 2 ^ d.currCodeSize ∧ d.currCodeSize < 12 then
    { d with table := table1, currCodeSize := d.currCodeSize + 1 }
  else { d with table := table1 }

/-- get_curr_code_size of LzwDictionary. -/
def LzwDictionary.getCurrCodeSize (d : LzwDictionary) : Nat := d.currCodeSize

/-- C7: pushing a new entry increments the current code size exactly
when the new table length reaches 2^current_code_size with the current
size below 12; otherwise the size is unchanged, it never exceeds 12
when it started at most 12, and at 12 it stays 12. -/
theorem push_growth_spec (d : LzwDictionary) (v : List Nat) (h12 : d.currCodeSize ≤ 12) :
    ((d.pushNewValue v).currCodeSize = d.currCodeSize + 1 ↔
      d.table.length + 1 = 2 ^ d.currCodeSize ∧ d.currCodeSize < 12) ∧
    (¬(d.table.length + 1 = 2 ^ d.currCodeSize ∧ d.currCodeSize < 12) →
      (d.pushNewValue v).currCodeSize = d.currCodeSize) ∧
    (d.pushNewValue v).currCodeSize ≤ 12 ∧
    (d.currCodeSize = 12 → (d.pushNewValue v).currCodeSize = 12) := by
  unfold LzwDictionary.pushNewValue
  dsimp only
  rw [List.length_append]
  by_cases hcond : d.table.length + 1 = 2 ^ d.currCodeSize ∧ d.currCodeSize < 12
  · rw [if_pos (by simpa using hcond)]
    refine ⟨by simpa using hcond, fun hn => absurd hcond hn, by dsimp only; omega,
      fun h12eq => by dsimp only; omega⟩
  · rw [if_neg (by simpa using hcond)]
    exact ⟨by dsimp only; omega, fun _ => rfl, by dsimp only; omega,
      fun h12eq => by dsimp only; omega⟩

/-- Closed instance of push_growth_spec: the dictionary for minimum
code size 2 starts with 6 codes and code size 3; two pushes bring the
table to 8 = 2^3 entries and only the second one grows the size to 4. -/
theorem push_growth_spec_witness :
    (((LzwDictionary.new 2).pushNewValue [0]).pushNewValue [1]).currCodeSize = 4 ∧
    ((LzwDictionary.new 2).pushNewValue [0]).currCodeSize = 3 := by
  constructor
  · exact (push_growth_spec ((LzwDictionary.new 2).pushNewValue [0]) [1] (by decide)).1.mpr
      (by decide)
  · exact (push_growth_spec (LzwDictionary.new 2) [0] (by decide)).2.1 (by decide)

/-- Dictionary states reachable from LzwDecoder::new(min): decode_next
of src/decoder.rs mutates its dictionary only through clear (on a Clear
code) and push_new_value (on ordinary and self-reference codes), so any
sequence of decode_next calls walks inside this relation. -/
inductive DictReach (min : Nat) : LzwDictionary → Prop where
  | init : DictReach min (LzwDictionary.new min)
  | clear : ∀ {d : LzwDictionary}, DictReach min d → DictReach min d.clear
  | push : ∀ {d : LzwDictionary} (v : List Nat), DictReach min d →
      DictReach min (d.pushNewValue v)

/-- C9: for a decoder built with min_code_size at most 11, every
dictionary state reachable across decode_next calls keeps the current
code size within [min_code_size + 1, 12]; hence every bit-reader call
made with that code size stays at most 12 bits and never reaches the
above-16 panic branch of get_next_code. -/
theorem dict_code_size_invariant (min : Nat) (hmin : min ≤ 11) (d : LzwDictionary)
    (h : DictReach min d) :
    d.minCodeSize = min ∧ min + 1 ≤ d.currCodeSize ∧ d.currCodeSize ≤ 12 ∧
    ∀ (rd : LsbReader) (buf : List Nat),
      getNextCodeChecked rd buf d.getCurrCodeSize =
        Except.ok (getNextCode rd buf d.getCurrCodeSize) := by
  have hchk : ∀ (d1 : LzwDictionary), d1.currCodeSize ≤ 12 →
      ∀ (rd : LsbReader) (buf : List Nat),
        getNextCodeChecked rd buf d1.getCurrCodeSize =
          Except.ok (getNextCode rd buf d1.getCurrCodeSize) := by
    intro d1 hle rd buf
    unfold getNextCodeChecked LzwDictionary.getCurrCodeSize
    rw [if_neg (by omega)]
  induction h with
  | init =>
    have hcurr : (LzwDictionary.new min).currCodeSize = min + 1 := rfl
    refine ⟨rfl, ?_, ?_, hchk _ ?_⟩ <;> rw [hcurr] <;> omega
  | clear hr ih =>
    rename_i d1
    obtain ⟨hm, hlo, hhi, _⟩ := ih
    have hmin1 : d1.clear.minCodeSize = d1.minCodeSize := rfl
    have hcurr : d1.clear.currCodeSize = d1.minCodeSize + 1 := rfl
    refine ⟨by rw [hmin1, hm], by rw [hcurr, hm], ?_, hchk _ ?_⟩ <;>
      rw [hcurr, hm] <;> omega
  | push v hr ih =>
    rename_i d1
    obtain ⟨hm, hlo, hhi, _⟩ := ih
    have hcases : (d1.pushNewValue v).currCodeSize = d1.currCodeSize ∨
        ((d1.pushNewValue v).currCodeSize = d1.currCodeSize + 1 ∧ d1.currCodeSize < 12) := by
      unfold LzwDictionary.pushNewValue
      dsimp only
      split
      · rename_i hcond
        right
        exact ⟨rfl, hcond.2⟩
      · left
        rfl
    have h3 : (d1.pushNewValue v).currCodeSize ≤ 12 := by omega
    have hmin1 : (d1.pushNewValue v).minCodeSize = d1.minCodeSize := by
      unfold LzwDictionary.pushNewValue
      dsimp only
      split <;> rfl
    exact ⟨by rw [hmin1, hm], by omega, h3, hchk _ h3⟩

/-- Closed instance of dict_code_size_invariant: after a clear and one
push from the initial dictionary of minimum code size 2, the current
code size is still within [3, 12] and a 12-bit-capped bit-reader call
succeeds. -/
theorem dict_code_size_invariant_witness :
    3 ≤ ((LzwDictionary.new 2).clear.pushNewValue [7]).currCodeSize ∧
    ((LzwDictionary.new 2).clear.pushNewValue [7]).currCodeSize ≤ 12 ∧
    getNextCodeChecked ⟨0, 0⟩ [255]
        ((LzwDictionary.new 2).clear.pushNewValue [7]).getCurrCodeSize =
      Except.ok (getNextCode ⟨0, 0⟩ [255]
        ((LzwDictionary.new 2).clear.pushNewValue [7]).getCurrCodeSize) := by
  obtain ⟨_, hlo, hhi, hcall⟩ :=
    dict_code_size_invariant 2 (by decide) ((LzwDictionary.new 2).clear.pushNewValue [7])
      (DictReach.push [7] (DictReach.clear DictReach.init))
  exact ⟨hlo, hhi, hcall ⟨0, 0⟩ [255]⟩

/-- Events sent to the event loop proxy by decode_and_render
(src/event_loop.rs): a decoded frame with its delay, looping
information, and the end-of-frames signal. -/
inductive GifEvent where
  | gifFrameData : List Nat → Option Nat → GifEvent
  | loopingInfo : Option Nat → GifEvent
  | gifFrameEnd : GifEvent
deriving DecidableEq, Repr

/-- Outcome of one iteration of the decode_and_render block loop
(src/parser.rs lines 60-159), with the block parsing abstracted to its
parsed result: a processed Image Descriptor with the frame it emits, the
Trailer, an Application Extension parsed to NetscapeLooping, any other
extension handled without an event (GCE, unknown application extension,
comment, plain text), or a halt (a parse error or the comment-branch
panic, which ends decoding with no further event). -/
inductive BlockStep where
  | image : List Nat → Option Nat → BlockStep
  | trailer : BlockStep
  | netscapeLooping : Nat → BlockStep
  | otherExtension : BlockStep
  | halt : BlockStep
deriving DecidableEq, Repr

/-- Event-emission structure of the decode_and_render loop: an image
emits its frame event; the Trailer emits LoopingInfo(None) only when no
looping attribute was found, then FrameEnd, and stops (second component
true); a NETSCAPE looping extension sets found_loop_attribute and emits
LoopingInfo(Some n); other extensions emit nothing; errors stop without
events. -/
def driverRun (found : Bool) : List BlockStep → List GifEvent × Bool
  | [] => ([], false)
  | BlockStep.image d delay :: rest =>
    let r := driverRun found rest
    (GifEvent.gifFrameData d delay :: r.1, r.2)
  | BlockStep.trailer :: _ =>
    ((if found then [] else [GifEvent.loopingInfo none]) ++ [GifEvent.gifFrameEnd], true)
  | BlockStep.netscapeLooping n :: rest =>
    let r := driverRun true rest
    (GifEvent.loopingInfo (some n) :: r.1, r.2)
  | BlockStep.otherExtension :: rest => driverRun found rest
  | BlockStep.halt :: _ => ([], false)

/-- Whether an event is a LoopingInfo event. -/
def isLoopingInfo : GifEvent → Bool
  | GifEvent.loopingInfo _ => true
  | _ => false

/-- Number of LoopingInfo events in an event list. -/
def countLooping (evs : List GifEvent) : Nat := evs.countP isLoopingInfo

/-- Number of NETSCAPE looping extensions processed before decoding
stops at the Trailer or at an error. -/
def countNetscapeBeforeTrailer : List BlockStep → Nat
  | [] => 0
  | BlockStep.trailer :: _ => 0
  | BlockStep.halt :: _ => 0
  | BlockStep.netscapeLooping _ :: rest => countNetscapeBeforeTrailer rest + 1
  | _ :: rest => countNetscapeBeforeTrailer rest

/-- C8 counterexample: a decode run with two NETSCAPE looping extensions
reaches the Trailer yet emits two LoopingInfo events, not exactly one. -/
theorem two_netscape_two_looping_events :
    (driverRun false
      [BlockStep.netscapeLooping 0, BlockStep.netscapeLooping 0, BlockStep.trailer]).2 = true ∧
    countLooping (driverRun false
      [BlockStep.netscapeLooping 0, BlockStep.netscapeLooping 0, BlockStep.trailer]).1 = 2 := by
  decide

/-- Looping-event count of a run that reaches the Trailer, generalized
over the incoming found_loop_attribute flag, together with FrameEnd
being the final event. -/
theorem driverRun_looping_aux (bs : List BlockStep) : ∀ (found : Bool),
    (driverRun found bs).2 = true →
    countLooping (driverRun found bs).1 =
      (if found then countNetscapeBeforeTrailer bs
        else max 1 (countNetscapeBeforeTrailer bs)) ∧
    ∃ pre, (driverRun found bs).1 = pre ++ [GifEvent.gifFrameEnd] := by
  induction bs with
  | nil =>
    intro found h
    simp [driverRun] at h
  | cons b rest ih =>
    intro found h
    cases b with
    | image d delay =>
      have h2 : (driverRun found rest).2 = true := by
        simpa [driverRun] using h
      obtain ⟨hcount, pre, hpre⟩ := ih found h2
      refine ⟨?_, GifEvent.gifFrameData d delay :: pre, ?_⟩
      · simpa [driverRun, countLooping, countNetscapeBeforeTrailer, isLoopingInfo,
          List.countP_cons] using hcount
      · simp [driverRun, hpre]
    | trailer =>
      cases found <;>
        exact ⟨by simp [driverRun, countLooping, countNetscapeBeforeTrailer, isLoopingInfo,
            List.countP_cons], _, rfl⟩
    | netscapeLooping n =>
      have h2 : (driverRun true rest).2 = true := by
        simpa [driverRun] using h
      obtain ⟨hcount, pre, hpre⟩ := ih true h2
      simp only [if_true, countLooping] at hcount
      refine ⟨?_, GifEvent.loopingInfo (some n) :: pre, ?_⟩
      · simp only [driverRun, countLooping, countNetscapeBeforeTrailer, isLoopingInfo,
          List.countP_cons, hcount]
        cases found <;> simp <;> omega
      · simp [driverRun, hpre]
    | otherExtension =>
      have h2 : (driverRun found rest).2 = true := by
        simpa [driverRun] using h
      obtain ⟨hcount, pre, hpre⟩ := ih found h2
      exact ⟨by simpa [driverRun, countNetscapeBeforeTrailer] using hcount,
        pre, by simpa [driverRun] using hpre⟩
    | halt =>
      simp [driverRun] at h

/-- C8 amended: a decode run that reaches the Trailer emits
LoopingInfo(None) there exactly when no NETSCAPE looping extension was
parsed, and one LoopingInfo(Some n) per NETSCAPE looping extension
parsed, so the total LoopingInfo count is max 1 k for k parsed
extensions (exactly one whenever at most one NETSCAPE extension occurs);
FrameEnd is the final event. -/
theorem driver_looping_events (bs : List BlockStep)
    (h : (driverRun false bs).2 = true) :
    countLooping (driverRun false bs).1 = max 1 (countNetscapeBeforeTrailer bs) ∧
    ∃ pre, (driverRun false bs).1 = pre ++ [GifEvent.gifFrameEnd] := by
  have := driverRun_looping_aux bs false h
  simpa using this

/-- Closed instance of driver_looping_events: a run with one NETSCAPE
looping extension and one frame emits exactly one LoopingInfo event and
ends with FrameEnd. -/
theorem driver_looping_events_witness :
    countLooping (driverRun false
      [BlockStep.netscapeLooping 0, BlockStep.image [1] none, BlockStep.trailer]).1 = 1 ∧
    ∃ pre, (driverRun false
      [BlockStep.netscapeLooping 0, BlockStep.image [1] none, BlockStep.trailer]).1 =
        pre ++ [GifEvent.gifFrameEnd] := by
  obtain ⟨hcount, hpre⟩ := driver_looping_events
    [BlockStep.netscapeLooping 0, BlockStep.image [1] none, BlockStep.trailer] (by decide)
  exact ⟨by simpa using hcount, hpre⟩

end GifRenderer
